import Mathlib

/-!
# Verification of `area_monitor.py`

Shallow embedding of the area-registry monitor: the JSON list-of-strings
encoding used for the `aliases`/`labels` columns, the reconciliation pass
`update_database_with_new_areas`, the snapshot extraction
`data.get('data', {}).get('areas', [])`, the polling loop body of
`poll_file_changes`, and the statement order of `main`.
-/

namespace AreaMonitor

/-! ## JSON encoding of a list of strings

`json.dumps(v)` for a Python list of strings, with the default options
(`ensure_ascii=True`, separator `", "`): characters in `0x20..0x7E` other
than `"` and `\` are emitted literally; `"` and `\` are backslash-escaped;
the control characters 8, 9, 10, 12, 13 get their short escapes; every
other character becomes `\uXXXX` (lowercase hex), using a surrogate pair
for code points at or above `0x10000`. -/

def hexDigitChar (n : Nat) : Char :=
  if n < 10 then Char.ofNat (48 + n) else Char.ofNat (87 + n)

def hex4Chars (n : Nat) : List Char :=
  [hexDigitChar (n / 4096 % 16), hexDigitChar (n / 256 % 16),
   hexDigitChar (n / 16 % 16), hexDigitChar (n % 16)]

def encCh (c : Char) : List Char :=
  if c = '"' then ['\\', '"']
  else if c = '\\' then ['\\', '\\']
  else if 0x20 ≤ c.toNat ∧ c.toNat ≤ 0x7E then [c]
  else if c.toNat = 8 then ['\\', 'b']
  else if c.toNat = 9 then ['\\', 't']
  else if c.toNat = 10 then ['\\', 'n']
  else if c.toNat = 12 then ['\\', 'f']
  else if c.toNat = 13 then ['\\', 'r']
  else if c.toNat < 0x10000 then '\\' :: 'u' :: hex4Chars c.toNat
  else
    ('\\' :: 'u' :: hex4Chars (0xD800 + (c.toNat - 0x10000) / 0x400)) ++
    ('\\' :: 'u' :: hex4Chars (0xDC00 + (c.toNat - 0x10000) % 0x400))

def encChars : List Char → List Char
  | [] => []
  | c :: cs => encCh c ++ encChars cs

/-- The characters of `json.dumps(s)` for a single Python string `s`. -/
def encodeJsonString (s : String) : List Char :=
  '"' :: encChars s.data ++ ['"']

/-- The item sequence of `json.dumps(v)` for a list `v`, with the default
item separator `", "`. -/
def encodeItems : List String → List Char
  | [] => []
  | [s] => encodeJsonString s
  | s :: rest => encodeJsonString s ++ ',' :: ' ' :: encodeItems rest

/-- `json.dumps(v)` for a Python list of strings `v`. -/
def encodeStrList (v : List String) : String :=
  String.mk ('[' :: encodeItems v ++ [']'])

/-! ## Decoding the stored blob

Modelled from the spec: the decode direction (the store's native read path
followed by `json.loads` of the stored text) appears nowhere in the source
file, which only ever encodes; the spec calls the encoding "a reversible
list-of-strings encoding". The decoder below parses exactly the JSON
string-array grammar the encoder emits (escape sequences included,
surrogate pairs recombined). -/

def hexVal (c : Char) : Option Nat :=
  if '0' ≤ c ∧ c ≤ '9' then some (c.toNat - 48)
  else if 'a' ≤ c ∧ c ≤ 'f' then some (c.toNat - 87)
  else if 'A' ≤ c ∧ c ≤ 'F' then some (c.toNat - 55)
  else none

def hex4 (h1 h2 h3 h4 : Char) : Option Nat :=
  match hexVal h1, hexVal h2, hexVal h3, hexVal h4 with
  | some a, some b, some c, some d => some (4096 * a + 256 * b + 16 * c + d)
  | _, _, _, _ => none

/-- After a high surrogate `n`, parse the low half `\uXXXX` of a
surrogate pair and recombine. -/
def lexPair (n : Nat) : List Char → Option (Char × List Char)
  | b1 :: u2 :: h5 :: h6 :: h7 :: h8 :: l3 =>
    if b1 = '\\' ∧ u2 = 'u' then
      match hex4 h5 h6 h7 h8 with
      | none => none
      | some m =>
        if 0xDC00 ≤ m ∧ m < 0xE000 then
          some (Char.ofNat (0x10000 + (n - 0xD800) * 0x400 + (m - 0xDC00)), l3)
        else none
    else none
  | _ => none

/-- Parse the `XXXX` (and a following low surrogate if needed) of a
`\uXXXX` escape. -/
def lexU : List Char → Option (Char × List Char)
  | h1 :: h2 :: h3 :: h4 :: l2 =>
    match hex4 h1 h2 h3 h4 with
    | none => none
    | some n =>
      if 0xD800 ≤ n ∧ n < 0xDC00 then lexPair n l2
      else if 0xDC00 ≤ n ∧ n < 0xE000 then none
      else some (Char.ofNat n, l2)
  | _ => none

/-- Parse one escape sequence (everything after the backslash). -/
def lexEsc : List Char → Option (Char × List Char)
  | [] => none
  | e :: l =>
    if e = '"' then some ('"', l)
    else if e = '\\' then some ('\\', l)
    else if e = '/' then some ('/', l)
    else if e = 'b' then some (Char.ofNat 8, l)
    else if e = 't' then some (Char.ofNat 9, l)
    else if e = 'n' then some (Char.ofNat 10, l)
    else if e = 'f' then some (Char.ofNat 12, l)
    else if e = 'r' then some (Char.ofNat 13, l)
    else if e = 'u' then lexU l
    else none

/-- Parse the body of a JSON string (everything after the opening quote)
up to and including the closing quote; return the decoded characters and
the unconsumed remainder. The fuel bounds the number of decoded
characters. -/
def parseStrBody : Nat → List Char → Option (List Char × List Char)
  | 0, _ => none
  | _ + 1, [] => none
  | fuel + 1, c :: l =>
    if c = '"' then some ([], l)
    else if c = '\\' then
      match lexEsc l with
      | none => none
      | some (d, l2) => (parseStrBody fuel l2).map (fun p => (d :: p.1, p.2))
    else (parseStrBody fuel l).map (fun p => (c :: p.1, p.2))

/-- Parse a nonempty sequence of `", "`-separated JSON strings terminated
by `]` at the end of input. The fuel bounds the number of items. -/
def parseItemsF : Nat → List Char → Option (List String)
  | 0, _ => none
  | fuel + 1, l =>
    match l with
    | '"' :: rest =>
      match parseStrBody (rest.length + 1) rest with
      | none => none
      | some (cs, rest2) =>
        match rest2 with
        | [']'] => some [String.mk cs]
        | ',' :: ' ' :: more =>
          match parseItemsF fuel more with
          | none => none
          | some ss => some (String.mk cs :: ss)
        | _ => none
    | _ => none

/-- Decode a stored `aliases`/`labels` blob back to a list of strings. -/
def decodeStrList (s : String) : Option (List String) :=
  match s.data with
  | '[' :: rest =>
    if rest = [']'] then some [] else parseItemsF rest.length rest
  | _ => none

/-! ## Data model

`Row` is one row of the sqlite `area` table (schema in
`initialize_database`, src/area_monitor.py lines 22-32): `id` and `name`
are NOT NULL, the five optional columns are nullable, and
`aliases`/`labels` are text blobs holding the JSON encoding.

`AreaDict` is one record dictionary from the registry file. Key absence
is `none`; `dict.get(k)` yields `none` (SQL NULL) for the optional string
keys and `[]` for the list keys, while `dict[k]` on a missing key raises
`KeyError`. -/

structure Row where
  id : String
  name : String
  floor_id : Option String
  icon : Option String
  picture : Option String
  created_at : Option String
  modified_at : Option String
  aliases : String
  labels : String
deriving DecidableEq

structure AreaDict where
  id? : Option String
  name? : Option String
  floor_id : Option String
  icon : Option String
  picture : Option String
  created_at : Option String
  modified_at : Option String
  aliases? : Option (List String)
  labels? : Option (List String)
deriving DecidableEq

abbrev DB := List Row
abbrev Snapshot := List AreaDict

/-- Exceptions that can arise inside the worker bodies. The Python code
catches them with a bare `except Exception`. -/
inductive PyExc where
  | keyError
  | attributeError
  | storeError
deriving DecidableEq

/-- Outcome oracle for the persistence operations of one
`update_database_with_new_areas` call: whether the connection opens, the
`SELECT id` succeeds, each `DELETE` (by id) succeeds, each
`INSERT OR REPLACE` (by position in the snapshot) succeeds, and whether
the final `conn.commit()` succeeds. -/
structure StoreOracle where
  connectOk : Bool
  selectOk : Bool
  deleteOk : String → Bool
  upsertOk : Nat → Bool
  commitOk : Bool

def okOracle : StoreOracle :=
  { connectOk := true, selectOk := true, deleteOk := fun _ => true,
    upsertOk := fun _ => true, commitOk := true }

/-! ## The reconciliation pass (`update_database_with_new_areas`, lines 41-84) -/

/-- The row built for one record by the upsert statement (lines 59-75):
`area['id']` and `area['name']` raise `KeyError` when absent, the
optional keys go through `area.get(...)` (NULL when absent), and
`aliases`/`labels` are `json.dumps(area.get(..., []))`. -/
def rowOf (a : AreaDict) : Except PyExc Row :=
  match a.id?, a.name? with
  | some i, some n =>
    .ok { id := i, name := n, floor_id := a.floor_id, icon := a.icon,
          picture := a.picture, created_at := a.created_at,
          modified_at := a.modified_at,
          aliases := encodeStrList (a.aliases?.getD []),
          labels := encodeStrList (a.labels?.getD []) }
  | _, _ => .error .keyError

/-- Total companion of `rowOf`, agreeing with it on records that carry
`id` and `name`. -/
def mkRow (a : AreaDict) : Row :=
  { id := a.id?.getD "", name := a.name?.getD "", floor_id := a.floor_id,
    icon := a.icon, picture := a.picture, created_at := a.created_at,
    modified_at := a.modified_at,
    aliases := encodeStrList (a.aliases?.getD []),
    labels := encodeStrList (a.labels?.getD []) }

def idOf (a : AreaDict) : String := a.id?.getD ""

/-- `current_ids = {area['id'] for area in area_data}` (line 51): the set
comprehension reads every record's `id`, raising `KeyError` at the first
record lacking one. -/
def currentIds : Snapshot → Except PyExc (List String)
  | [] => .ok []
  | a :: rest =>
    match a.id? with
    | none => .error .keyError
    | some i =>
      match currentIds rest with
      | .error e => .error e
      | .ok rest_ids => .ok (i :: rest_ids)

/-- The delete loop (lines 54-56) over the stale ids, applied to the
connection's uncommitted working state. -/
def deleteLoop (o : StoreOracle) : List String → DB → Except PyExc DB
  | [], db => .ok db
  | i :: rest, db =>
    if o.deleteOk i then deleteLoop o rest (db.filter (fun r => r.id ≠ i))
    else .error .storeError

/-- `INSERT OR REPLACE` keyed by `id`: sqlite removes any existing row
with that id and inserts the new row. -/
def upsertRow (db : DB) (r : Row) : DB :=
  db.filter (fun x => x.id ≠ r.id) ++ [r]

/-- The upsert loop (lines 59-75), `k` counting the statements issued so
far for the oracle. -/
def upsertLoop (o : StoreOracle) : Snapshot → Nat → DB → Except PyExc DB
  | [], _, db => .ok db
  | a :: rest, k, db =>
    match rowOf a with
    | .error e => .error e
    | .ok r =>
      if o.upsertOk k then upsertLoop o rest (k + 1) (upsertRow db r)
      else .error .storeError

/-- The body of the `try` block of `update_database_with_new_areas`
(lines 43-81): connect, `SELECT id`, compute `current_ids`, delete
`existing_ids - current_ids`, upsert every record, then `conn.commit()`.
The result is the committed table; any failure raises before the commit,
so the uncommitted working state is discarded (sqlite rolls an
uncommitted transaction back when the leaked connection is closed). -/
def reconcileBody (o : StoreOracle) (area_data : Snapshot) (db : DB) :
    Except PyExc DB :=
  if o.connectOk = false then .error .storeError
  else if o.selectOk = false then .error .storeError
  else
    match currentIds area_data with
    | .error e => .error e
    | .ok current =>
      match deleteLoop o (((db.map Row.id).dedup).filter
          (fun i => !(current.contains i))) db with
      | .error e => .error e
      | .ok db1 =>
        match upsertLoop o area_data 0 db1 with
        | .error e => .error e
        | .ok db2 => if o.commitOk then .ok db2 else .error .storeError

/-- The result record of the spec's Reconciler contract
(`apply(snapshot) -> Result`); modelled from the spec, the source returns
no such value. -/
structure Result where
  inserted : Nat
  updated : Nat
  deleted : Nat
deriving DecidableEq

/-- `update_database_with_new_areas` (lines 41-84): the `except` clause
catches every exception and only prints it, so the function always
returns Python `None` (here: the second component, always `none`); the
first component is the committed table after the call. -/
def update_database_with_new_areas (o : StoreOracle) (area_data : Snapshot)
    (db : DB) : DB × Option Result :=
  match reconcileBody o area_data db with
  | .ok db2 => (db2, none)
  | .error _ => (db, none)

/-- One failure-free apply. -/
def applyOnce (area_data : Snapshot) (db : DB) : DB :=
  (update_database_with_new_areas okOracle area_data db).1

/-- Applying a sequence of snapshots in order. -/
def applySeq (snaps : List Snapshot) (db : DB) : DB :=
  snaps.foldl (fun d s => applyOnce s d) db

/-- The rows a snapshot reconciles to, independent of the previous table
contents: later duplicate ids overwrite earlier ones. -/
def snapRows (area_data : Snapshot) : DB :=
  (area_data.map mkRow).foldl upsertRow []

/-! ## Snapshot extraction (`data.get('data', {}).get('areas', [])`,
lines 99 and 144) -/

/-- A parsed JSON document (`json.load` output). Numeric payloads are
kept opaque. An `obj` is a parsed Python dict, so its keys are unique. -/
inductive JValue where
  | null
  | bool (b : Bool)
  | num (lit : String)
  | str (s : String)
  | arr (xs : List JValue)
  | obj (fields : List (String × JValue))

/-- Python `v.get(key, default)`: only dicts have `.get`; any other value
raises `AttributeError`. -/
def pyGet (v : JValue) (key : String) (default : JValue) :
    Except PyExc JValue :=
  match v with
  | .obj fields =>
    match fields.find? (fun kv => kv.1 == key) with
    | some kv => .ok kv.2
    | none => .ok default
  | _ => .error .attributeError

/-- `data.get('data', {}).get('areas', [])`. -/
def extract_areas (doc : JValue) : Except PyExc JValue :=
  match pyGet doc "data" (.obj []) with
  | .error e => .error e
  | .ok d => pyGet d "areas" (.arr [])

/-! ## The polling loop (`poll_file_changes`, lines 86-111) -/

/-- Environment of one iteration of the polling loop: the outcome of
`os.path.getmtime`, the outcome of `open` + `json.load`, and whether the
queue publish succeeds. -/
structure PollEnv where
  mtime : Except Unit Nat
  doc : Except Unit JValue
  putOk : Bool

/-- One iteration of the `while True` body of `poll_file_changes`: any
exception lands in the `except` clause, which only logs, leaving
`last_modified_time` unchanged; it is assigned only after the publish
succeeded. Returns the new `last_modified_time` and the published areas
value, if any. -/
def pollStep (last : Option Nat) (env : PollEnv) :
    Option Nat × Option JValue :=
  match env.mtime with
  | .error _ => (last, none)
  | .ok cur =>
    if last = some cur then (last, none)
    else
      match env.doc with
      | .error _ => (last, none)
      | .ok doc =>
        match extract_areas doc with
        | .error _ => (last, none)
        | .ok areas =>
          if env.putOk then (some cur, some areas) else (last, none)

/-! ## Statement order of `main` (lines 122-150) -/

inductive MainStep where
  | initializeDatabase
  | checkRegistryExists
  | startPollingThread
  | startUpdaterThread
  | initialSyncRead
  | initialSyncApply
  | idleLoop
deriving DecidableEq

/-- The top-level statements of `main`, in source order: initialize the
database, check the registry file exists, start the polling thread, start
the updater thread, then perform the initial sync (read + apply) and
enter the idle loop. -/
def mainSteps : List MainStep :=
  [.initializeDatabase, .checkRegistryExists, .startPollingThread,
   .startUpdaterThread, .initialSyncRead, .initialSyncApply, .idleLoop]

/-- Position of a step in `main`. -/
def stepIndex (s : MainStep) : Nat :=
  mainSteps.findIdx (fun t => t = s)

/-! ## Auxiliary definitions for the statements and concrete checks -/

/-- A record carries the two keys the upsert statement reads with
`dict[...]`. -/
def recordWF (a : AreaDict) : Bool := a.id?.isSome && a.name?.isSome

/-- An oracle whose second upsert statement fails. -/
def failSecondUpsert : StoreOracle :=
  { connectOk := true, selectOk := true, deleteOk := fun _ => true,
    upsertOk := fun k => k == 0, commitOk := true }

/-- An oracle for a store that is down: every operation fails. -/
def allFailOracle : StoreOracle :=
  { connectOk := false, selectOk := false, deleteOk := fun _ => false,
    upsertOk := fun _ => false, commitOk := false }

def sampleKitchen : AreaDict :=
  { id? := some "A", name? := some "Kitchen", floor_id := none, icon := none,
    picture := none, created_at := none, modified_at := none,
    aliases? := some [], labels? := some ["wet"] }

def sampleGarage : AreaDict :=
  { id? := some "C", name? := some "Garage", floor_id := some "f1",
    icon := none, picture := none, created_at := none, modified_at := none,
    aliases? := some ["shop"], labels? := none }

/-- A record lacking the required `name` key. -/
def sampleNameless : AreaDict :=
  { id? := some "D", name? := none, floor_id := none, icon := none,
    picture := none, created_at := none, modified_at := none,
    aliases? := none, labels? := none }

def sampleRowB : Row :=
  { id := "B", name := "Bedroom", floor_id := none, icon := none,
    picture := none, created_at := none, modified_at := none,
    aliases := "[]", labels := "[]" }

/-- A second record with the same id as `sampleKitchen`. -/
def sampleKitchen2 : AreaDict :=
  { id? := some "A", name? := some "Kitchen2", floor_id := none, icon := none,
    picture := none, created_at := none, modified_at := none,
    aliases? := none, labels? := none }

/-- A record with only the required keys present. -/
def sampleMinimal : AreaDict :=
  { id? := some "M", name? := some "Min", floor_id := none, icon := none,
    picture := none, created_at := none, modified_at := none,
    aliases? := none, labels? := none }

/-- A record whose aliases are a two-element list. -/
def sampleAliased : AreaDict :=
  { id? := some "A", name? := some "Kitchen", floor_id := none, icon := none,
    picture := none, created_at := none, modified_at := none,
    aliases? := some ["a", "b"], labels? := none }

/-! ## Lemmas: the encoding round-trips -/

theorem hexVal_hexDigitChar : ∀ n : Nat, n < 16 → hexVal (hexDigitChar n) = some n := by
  decide

theorem hex4_hex4Chars (n : Nat) (h : n < 65536) :
    hex4 (hexDigitChar (n / 4096 % 16)) (hexDigitChar (n / 256 % 16))
      (hexDigitChar (n / 16 % 16)) (hexDigitChar (n % 16)) = some n := by
  have e1 := hexVal_hexDigitChar (n / 4096 % 16) (Nat.mod_lt _ (by omega))
  have e2 := hexVal_hexDigitChar (n / 256 % 16) (Nat.mod_lt _ (by omega))
  have e3 := hexVal_hexDigitChar (n / 16 % 16) (Nat.mod_lt _ (by omega))
  have e4 := hexVal_hexDigitChar (n % 16) (Nat.mod_lt _ (by omega))
  simp only [hex4, e1, e2, e3, e4]
  congr 1
  omega

/-- The scalar-value range of a `Char`: below the surrogate block, or
strictly between it and `0x110000`. -/
theorem char_toNat_valid (c : Char) :
    c.toNat < 0xD800 ∨ (0xDFFF < c.toNat ∧ c.toNat < 0x110000) := c.valid

theorem lexEsc_u (l : List Char) : lexEsc ('u' :: l) = lexU l := by
  simp [lexEsc]

theorem lexU_small (n : Nat) (h : n < 65536) (hns : ¬ (0xD800 ≤ n ∧ n < 0xDC00))
    (hns2 : ¬ (0xDC00 ≤ n ∧ n < 0xE000)) (l : List Char) :
    lexU (hex4Chars n ++ l) = some (Char.ofNat n, l) := by
  simp only [hex4Chars, List.cons_append, List.nil_append, lexU,
    hex4_hex4Chars n h, if_neg hns, if_neg hns2]

theorem lexU_high (n : Nat) (h : n < 65536) (hs : 0xD800 ≤ n ∧ n < 0xDC00)
    (l : List Char) : lexU (hex4Chars n ++ l) = lexPair n l := by
  simp only [hex4Chars, List.cons_append, List.nil_append, lexU,
    hex4_hex4Chars n h, if_pos hs]

theorem lexPair_low (n m : Nat) (hm : m < 65536) (hs : 0xDC00 ≤ m ∧ m < 0xE000)
    (l : List Char) :
    lexPair n ('\\' :: ('u' :: (hex4Chars m ++ l))) =
      some (Char.ofNat (0x10000 + (n - 0xD800) * 0x400 + (m - 0xDC00)), l) := by
  simp only [hex4Chars, List.cons_append, List.nil_append, lexPair,
    hex4_hex4Chars m hm, if_pos hs]
  simp

/-- One encoded character lexes back to that character: the encoding is
either the literal character (never `"` or `\`) or a backslash followed
by an escape that `lexEsc` maps back to `c`. -/
theorem encCh_spec (c : Char) :
    (encCh c = [c] ∧ ¬ c = '"' ∧ ¬ c = '\\') ∨
    (∃ r, encCh c = '\\' :: r ∧ ∀ l, lexEsc (r ++ l) = some (c, l)) := by
  have hv := char_toNat_valid c
  by_cases hq : c = '"'
  · subst hq
    exact Or.inr ⟨['"'], by simp [encCh], fun l => by simp [lexEsc]⟩
  by_cases hb : c = '\\'
  · subst hb
    exact Or.inr ⟨['\\'], by simp [encCh], fun l => by simp [lexEsc]⟩
  by_cases hp : 0x20 ≤ c.toNat ∧ c.toNat ≤ 0x7E
  · exact Or.inl ⟨by simp [encCh, hq, hb, hp], hq, hb⟩
  by_cases h8 : c.toNat = 8
  · refine Or.inr ⟨['b'], by simp [encCh, hq, hb, hp, h8], fun l => ?_⟩
    have hc : Char.ofNat 8 = c := by rw [← h8, Char.ofNat_toNat]
    show lexEsc ('b' :: l) = some (c, l)
    rw [← hc]
    simp [lexEsc]
  by_cases h9 : c.toNat = 9
  · refine Or.inr ⟨['t'], by simp [encCh, hq, hb, hp, h8, h9], fun l => ?_⟩
    have hc : Char.ofNat 9 = c := by rw [← h9, Char.ofNat_toNat]
    show lexEsc ('t' :: l) = some (c, l)
    rw [← hc]
    simp [lexEsc]
  by_cases h10 : c.toNat = 10
  · refine Or.inr ⟨['n'], by simp [encCh, hq, hb, hp, h8, h9, h10], fun l => ?_⟩
    have hc : Char.ofNat 10 = c := by rw [← h10, Char.ofNat_toNat]
    show lexEsc ('n' :: l) = some (c, l)
    rw [← hc]
    simp [lexEsc]
  by_cases h12 : c.toNat = 12
  · refine Or.inr ⟨['f'], by simp [encCh, hq, hb, hp, h8, h9, h10, h12], fun l => ?_⟩
    have hc : Char.ofNat 12 = c := by rw [← h12, Char.ofNat_toNat]
    show lexEsc ('f' :: l) = some (c, l)
    rw [← hc]
    simp [lexEsc]
  by_cases h13 : c.toNat = 13
  · refine Or.inr ⟨['r'], by simp [encCh, hq, hb, hp, h8, h9, h10, h12, h13], fun l => ?_⟩
    have hc : Char.ofNat 13 = c := by rw [← h13, Char.ofNat_toNat]
    show lexEsc ('r' :: l) = some (c, l)
    rw [← hc]
    simp [lexEsc]
  by_cases hsmall : c.toNat < 0x10000
  · refine Or.inr ⟨'u' :: hex4Chars c.toNat,
      by simp [encCh, hq, hb, hp, h8, h9, h10, h12, h13, hsmall], fun l => ?_⟩
    have hns : ¬ (0xD800 ≤ c.toNat ∧ c.toNat < 0xDC00) := by omega
    have hns2 : ¬ (0xDC00 ≤ c.toNat ∧ c.toNat < 0xE000) := by omega
    rw [List.cons_append, lexEsc_u, lexU_small c.toNat hsmall hns hns2,
      Char.ofNat_toNat]
  · have hbig : c.toNat < 0x110000 := by omega
    refine Or.inr ⟨'u' :: hex4Chars (0xD800 + (c.toNat - 0x10000) / 0x400) ++
        '\\' :: 'u' :: hex4Chars (0xDC00 + (c.toNat - 0x10000) % 0x400),
      by simp [encCh, hq, hb, hp, h8, h9, h10, h12, h13, hsmall], fun l => ?_⟩
    have hdiv : (c.toNat - 0x10000) / 0x400 < 0x400 := by omega
    have hmod : (c.toNat - 0x10000) % 0x400 < 0x400 :=
      Nat.mod_lt _ (by omega)
    have hhi : 0xD800 + (c.toNat - 0x10000) / 0x400 < 65536 := by omega
    have hlo : 0xDC00 + (c.toNat - 0x10000) % 0x400 < 65536 := by omega
    have hs1 : 0xD800 ≤ 0xD800 + (c.toNat - 0x10000) / 0x400 ∧
        0xD800 + (c.toNat - 0x10000) / 0x400 < 0xDC00 := by omega
    have hs2 : 0xDC00 ≤ 0xDC00 + (c.toNat - 0x10000) % 0x400 ∧
        0xDC00 + (c.toNat - 0x10000) % 0x400 < 0xE000 := by omega
    simp only [List.cons_append, List.append_assoc]
    rw [lexEsc_u, lexU_high _ hhi hs1, lexPair_low _ _ hlo hs2]
    rw [show 0x10000 + (0xD800 + (c.toNat - 0x10000) / 0x400 - 0xD800) * 0x400 +
        (0xDC00 + (c.toNat - 0x10000) % 0x400 - 0xDC00) = c.toNat by omega,
      Char.ofNat_toNat]

theorem encCh_length_pos (c : Char) : 1 ≤ (encCh c).length := by
  rcases encCh_spec c with ⟨h, -, -⟩ | ⟨r, h, -⟩ <;> simp [h]

theorem encChars_length : ∀ cs : List Char, cs.length ≤ (encChars cs).length := by
  intro cs
  induction cs with
  | nil => simp [encChars]
  | cons c cs ih =>
    have := encCh_length_pos c
    simp only [encChars, List.length_append, List.length_cons]
    omega

/-- Parsing the encoded characters of a string consumes exactly them,
stopping at the closing quote. -/
theorem parseStrBody_enc : ∀ (cs : List Char) (fuel : Nat) (tail : List Char),
    cs.length < fuel →
    parseStrBody fuel (encChars cs ++ ('"' :: tail)) = some (cs, tail) := by
  intro cs
  induction cs with
  | nil =>
    intro fuel tail h
    cases fuel with
    | zero => exact absurd h (by omega)
    | succ f => simp [encChars, parseStrBody]
  | cons c cs ih =>
    intro fuel tail h
    cases fuel with
    | zero => exact absurd h (by omega)
    | succ f =>
      have hf : cs.length < f := by
        simp only [List.length_cons] at h
        omega
      rcases encCh_spec c with ⟨he, hq, hb⟩ | ⟨r, he, hlex⟩
      · rw [encChars, he, List.cons_append, List.nil_append, List.cons_append]
        simp only [parseStrBody, if_neg hq, if_neg hb, ih f tail hf]
        rfl
      · rw [encChars, he, List.cons_append, List.cons_append, List.append_assoc]
        simp only [parseStrBody, if_neg (by decide : ¬ ('\\' = '"')), if_pos rfl,
          hlex (encChars cs ++ ('"' :: tail)), ih f tail hf]
        rfl

theorem encodeItems_length : ∀ v : List String, v.length ≤ (encodeItems v).length
  | [] => by simp [encodeItems]
  | [s] => by simp [encodeItems, encodeJsonString]
  | s :: s2 :: ss => by
    have ih := encodeItems_length (s2 :: ss)
    simp only [encodeItems, encodeJsonString, List.length_append,
      List.length_cons, List.length_cons] at *
    omega

/-- Parsing the encoded items of a nonempty list consumes them all up to
the closing bracket. -/
theorem parseItemsF_enc : ∀ (ss : List String) (s : String) (fuel : Nat),
    ss.length < fuel →
    parseItemsF fuel (encodeItems (s :: ss) ++ [']']) = some (s :: ss) := by
  intro ss
  induction ss with
  | nil =>
    intro s fuel h
    cases fuel with
    | zero => exact absurd h (by omega)
    | succ f =>
      have hshape : encodeItems [s] ++ [']'] =
          '"' :: (encChars s.data ++ ('"' :: [']'])) := by
        simp [encodeItems, encodeJsonString]
      rw [hshape]
      have hlen : s.data.length < (encChars s.data ++ ('"' :: [']'])).length + 1 := by
        have := encChars_length s.data
        simp only [List.length_append, List.length_cons]
        omega
      simp only [parseItemsF, parseStrBody_enc s.data _ _ hlen]
  | cons s2 ss2 ih =>
    intro s fuel h
    cases fuel with
    | zero => exact absurd h (by omega)
    | succ f =>
      have hf : (s2 :: ss2).length - 1 < f := by
        simp only [List.length_cons] at h ⊢
        omega
      have hshape : encodeItems (s :: s2 :: ss2) ++ [']'] =
          '"' :: (encChars s.data ++
            ('"' :: (',' :: ' ' :: (encodeItems (s2 :: ss2) ++ [']'])))) := by
        simp [encodeItems, encodeJsonString]
      rw [hshape]
      have hlen : s.data.length <
          (encChars s.data ++
            ('"' :: (',' :: ' ' :: (encodeItems (s2 :: ss2) ++ [']'])))).length + 1 := by
        have := encChars_length s.data
        simp only [List.length_append, List.length_cons]
        omega
      have hrec : ss2.length < f := by
        simp only [List.length_cons] at h
        omega
      simp only [parseItemsF, parseStrBody_enc s.data _ _ hlen, ih s2 f hrec]

/-- The encoding of a list of strings decodes back to it exactly:
`json.dumps` for a list of strings is lossless and order-preserving. -/
theorem decode_encode : ∀ v : List String, decodeStrList (encodeStrList v) = some v
  | [] => rfl
  | s :: ss => by
    have hhead : ∃ t, encodeItems (s :: ss) = '"' :: t := by
      cases ss <;> exact ⟨_, rfl⟩
    obtain ⟨t, ht⟩ := hhead
    have hne : ¬ (encodeItems (s :: ss) ++ [']'] = [']']) := by
      rw [ht]
      simp
    have hlen : ss.length < (encodeItems (s :: ss) ++ [']']).length := by
      have := encodeItems_length (s :: ss)
      simp only [List.length_append, List.length_cons] at *
      omega
    show decodeStrList (String.mk ('[' :: encodeItems (s :: ss) ++ [']'])) = some (s :: ss)
    simp only [decodeStrList, List.cons_append, if_neg hne]
    exact parseItemsF_enc ss s _ hlen

/-! ## Lemmas: the reconciliation pass -/

theorem mkRow_id (a : AreaDict) : (mkRow a).id = idOf a := rfl

theorem rowOf_eq_mkRow (a : AreaDict) (h : recordWF a = true) :
    rowOf a = .ok (mkRow a) := by
  simp only [recordWF, Bool.and_eq_true, Option.isSome_iff_exists] at h
  obtain ⟨⟨i, hi⟩, ⟨n, hn⟩⟩ := h
  simp [rowOf, mkRow, hi, hn, idOf]

theorem currentIds_wf : ∀ S : Snapshot, (∀ a ∈ S, recordWF a = true) →
    currentIds S = .ok (S.map idOf) := by
  intro S
  induction S with
  | nil => intro h; rfl
  | cons a rest ih =>
    intro h
    have ha := h a (by simp)
    simp only [recordWF, Bool.and_eq_true, Option.isSome_iff_exists] at ha
    obtain ⟨⟨i, hi⟩, -⟩ := ha
    simp [currentIds, hi, ih (fun x hx => h x (by simp [hx])), idOf]

theorem deleteLoop_okOracle : ∀ (ids : List String) (db : DB),
    deleteLoop okOracle ids db =
      .ok (db.filter (fun r => !(ids.contains r.id))) := by
  intro ids
  induction ids with
  | nil => intro db; simp [deleteLoop]
  | cons i rest ih =>
    intro db
    rw [deleteLoop, if_pos (show okOracle.deleteOk i = true from rfl),
      ih, List.filter_filter]
    congr 1
    apply List.filter_congr
    intro x hx
    by_cases hxi : x.id = i <;> simp [hxi]

theorem upsertLoop_okOracle : ∀ (S : Snapshot) (k : Nat) (db : DB),
    (∀ a ∈ S, recordWF a = true) →
    upsertLoop okOracle S k db = .ok ((S.map mkRow).foldl upsertRow db) := by
  intro S
  induction S with
  | nil => intro k db h; rfl
  | cons a rest ih =>
    intro k db h
    rw [upsertLoop, rowOf_eq_mkRow a (h a (by simp))]
    simp only [List.map_cons, List.foldl_cons]
    rw [if_pos (show okOracle.upsertOk k = true from rfl)]
    exact ih (k + 1) (upsertRow db (mkRow a)) (fun x hx => h x (by simp [hx]))

/-- After the delete pass, exactly the rows whose id is still current
remain. -/
theorem deletes_keep_current (db : DB) (current : List String) :
    db.filter (fun r =>
      !((((db.map Row.id).dedup).filter
        (fun i => !(current.contains i))).contains r.id)) =
    db.filter (fun r => current.contains r.id) := by
  apply List.filter_congr
  intro x hx
  have hxmem : x.id ∈ (db.map Row.id).dedup :=
    List.mem_dedup.mpr (List.mem_map_of_mem Row.id hx)
  by_cases hc : x.id ∈ current
  · simp [hc, hxmem]
  · simp [hc, hxmem]

/-- Folding upserts over any starting table splits into the untouched
rows (ids not upserted) and the canonical result from the empty table. -/
theorem foldl_upsert_decompose : ∀ (rows : List Row) (db : DB),
    rows.foldl upsertRow db =
      db.filter (fun x => !(rows.any (fun r => r.id == x.id))) ++
        rows.foldl upsertRow [] := by
  intro rows
  induction rows with
  | nil => intro db; simp
  | cons r rest ih =>
    intro db
    rw [List.foldl_cons, ih (upsertRow db r), List.foldl_cons,
      ih (upsertRow [] r)]
    have h1 : upsertRow [] r = [r] := rfl
    rw [h1]
    simp only [upsertRow, List.filter_append, List.filter_filter]
    rw [List.append_assoc]
    congr 1
    apply List.filter_congr
    intro x hx
    by_cases hxr : x.id = r.id
    · simp [hxr]
    · have : ¬ (r.id = x.id) := fun h => hxr h.symm
      simp [hxr, this]

theorem mem_foldl_upsert : ∀ (rows : List Row) (db : DB) (x : Row),
    x ∈ rows.foldl upsertRow db → x ∈ db ∨ x ∈ rows := by
  intro rows
  induction rows with
  | nil => intro db x h; exact Or.inl h
  | cons r rest ih =>
    intro db x h
    rw [List.foldl_cons] at h
    rcases ih (upsertRow db r) x h with hin | hin
    · simp only [upsertRow, List.mem_append] at hin
      rcases hin with hin | hin
      · exact Or.inl (List.mem_of_mem_filter hin)
      · simp only [List.mem_singleton] at hin
        exact Or.inr (by simp [hin])
    · exact Or.inr (by simp [hin])

/-- When the snapshot's ids are pairwise distinct and disjoint from the
table, upserting appends. -/
theorem foldl_upsert_of_nodup : ∀ (rows : List Row) (db : DB),
    (rows.map Row.id).Nodup → (∀ x ∈ db, ∀ r ∈ rows, ¬ x.id = r.id) →
    rows.foldl upsertRow db = db ++ rows := by
  intro rows
  induction rows with
  | nil => intro db _ _; simp
  | cons r rest ih =>
    intro db hnd hdisj
    simp only [List.map_cons, List.nodup_cons] at hnd
    rw [List.foldl_cons]
    have hfix : upsertRow db r = db ++ [r] := by
      unfold upsertRow
      congr 1
      apply List.filter_eq_self.mpr
      intro x hx
      simpa using hdisj x hx r (by simp)
    rw [hfix, ih (db ++ [r]) hnd.2]
    · simp
    · intro x hx s hs
      rcases List.mem_append.mp hx with hx | hx
      · exact hdisj x hx s (by simp [hs])
      · simp only [List.mem_singleton] at hx
        subst hx
        intro he
        exact hnd.1 (he ▸ List.mem_map_of_mem Row.id hs)

/-- Lookup in an upsert fold: the last upsert for an id wins, else the
original table row. -/
theorem find?_filter_ne (db : DB) (r : Row) (i : String) (hri : ¬ r.id = i) :
    (db.filter (fun x => decide (x.id ≠ r.id))).find? (fun x => x.id == i) =
      db.find? (fun x => x.id == i) := by
  induction db with
  | nil => rfl
  | cons x rest ih =>
    by_cases hxi : x.id = i
    · have hxr : x.id ≠ r.id := fun h => hri (h ▸ hxi)
      rw [List.filter_cons, if_pos (by simpa using hxr),
        List.find?_cons_of_pos _ (by simp [hxi]),
        List.find?_cons_of_pos _ (by simp [hxi])]
    · by_cases hxr : x.id = r.id
      · rw [List.filter_cons, if_neg (by simpa using hxr), ih,
          List.find?_cons_of_neg _ (by simp [hxi])]
      · rw [List.filter_cons, if_pos (by simpa using hxr),
          List.find?_cons_of_neg _ (by simp [hxi]),
          List.find?_cons_of_neg _ (by simp [hxi]), ih]

theorem upsertRow_find? (db : DB) (r : Row) (i : String) :
    (upsertRow db r).find? (fun x => x.id == i) =
      (([r].find? (fun x => x.id == i)).or (db.find? (fun x => x.id == i))) := by
  unfold upsertRow
  rw [List.find?_append]
  by_cases hri : r.id = i
  · have hnone :
        (db.filter (fun x => decide (x.id ≠ r.id))).find? (fun x => x.id == i) = none := by
      rw [List.find?_eq_none]
      intro x hx
      have := List.of_mem_filter hx
      simp only [decide_eq_true_eq] at this
      simp [hri ▸ this]
    rw [hnone]
    simp [hri]
  · have hr : ([r].find? (fun x => x.id == i)) = none := by
      simp [hri]
    rw [hr, find?_filter_ne db r i hri]
    simp

/-- Lookup in an upsert fold: the last upsert for an id wins, else the
original table row. -/
theorem foldl_upsert_find? (i : String) : ∀ (rows : List Row) (db : DB),
    (rows.foldl upsertRow db).find? (fun r => r.id == i) =
      ((rows.reverse.find? (fun r => r.id == i)).or
        (db.find? (fun r => r.id == i))) := by
  intro rows
  induction rows with
  | nil => intro db; simp
  | cons r rest ih =>
    intro db
    rw [List.foldl_cons, ih (upsertRow db r)]
    simp only [List.reverse_cons, List.find?_append]
    rw [Option.or_assoc]
    congr 1
    exact upsertRow_find? db r i

/-- Upserting a snapshot over the survivors of its own delete pass gives
the same rows as upserting over an empty table. -/
theorem foldl_upsert_from_current (S : Snapshot) (db : DB) :
    (S.map mkRow).foldl upsertRow
      (db.filter (fun r => (S.map idOf).contains r.id)) = snapRows S := by
  rw [foldl_upsert_decompose]
  have hnil : (db.filter (fun r => (S.map idOf).contains r.id)).filter
      (fun x => !((S.map mkRow).any (fun r => r.id == x.id))) = [] := by
    rw [List.filter_eq_nil_iff]
    intro x hx
    have hmem : x.id ∈ S.map idOf := by
      have := List.of_mem_filter hx
      simpa using this
    obtain ⟨a, ha, hai⟩ := List.mem_map.mp hmem
    have hany : (S.map mkRow).any (fun r => r.id == x.id) = true :=
      List.any_eq_true.mpr ⟨mkRow a, List.mem_map_of_mem _ ha, by simp [mkRow_id, hai]⟩
    simp [hany]
  rw [hnil]
  rfl

/-- On the all-success oracle and a snapshot whose records all carry
`id` and `name`, the pass succeeds and commits exactly the snapshot's
rows, independently of the previous table contents. -/
theorem reconcileBody_ok (S : Snapshot) (db : DB)
    (hwf : ∀ a ∈ S, recordWF a = true) :
    reconcileBody okOracle S db = .ok (snapRows S) := by
  unfold reconcileBody
  rw [if_neg (show ¬ (okOracle.connectOk = false) by decide),
      if_neg (show ¬ (okOracle.selectOk = false) by decide)]
  simp only [currentIds_wf S hwf, deleteLoop_okOracle]
  rw [deletes_keep_current db (S.map idOf)]
  simp only [upsertLoop_okOracle S 0 _ hwf]
  rw [if_pos (show okOracle.commitOk = true from rfl),
    foldl_upsert_from_current]

theorem applyOnce_eq_snapRows (S : Snapshot) (db : DB)
    (hwf : ∀ a ∈ S, recordWF a = true) : applyOnce S db = snapRows S := by
  unfold applyOnce update_database_with_new_areas
  rw [reconcileBody_ok S db hwf]

theorem snapRows_ids_sub (S : Snapshot) (x : Row) (hx : x ∈ snapRows S) :
    x.id ∈ S.map idOf := by
  rcases mem_foldl_upsert (S.map mkRow) [] x hx with h | h
  · simp at h
  · obtain ⟨a, ha, hax⟩ := List.mem_map.mp h
    exact List.mem_map.mpr ⟨a, ha, by rw [← hax, mkRow_id]⟩

theorem snapRows_eq_map (S : Snapshot) (hnd : (S.map idOf).Nodup) :
    snapRows S = S.map mkRow := by
  unfold snapRows
  rw [foldl_upsert_of_nodup (S.map mkRow) []]
  · simp
  · have hmm : (S.map mkRow).map Row.id = S.map idOf := by
      rw [List.map_map]
      rfl
    rw [hmm]
    exact hnd
  · intro x hx
    simp at hx

theorem find?_mkRow_of_nodup : ∀ (S : Snapshot) (a : AreaDict),
    (S.map idOf).Nodup → a ∈ S →
    (S.map mkRow).find? (fun r => r.id == idOf a) = some (mkRow a) := by
  intro S
  induction S with
  | nil => intro a _ ha; simp at ha
  | cons b rest ih =>
    intro a hnd ha
    simp only [List.map_cons, List.nodup_cons] at hnd
    by_cases hba : idOf b = idOf a
    · have hab : a = b := by
        rcases List.mem_cons.mp ha with h | h
        · exact h
        · exact absurd (hba ▸ List.mem_map_of_mem idOf h) hnd.1
      subst hab
      rw [List.map_cons, List.find?_cons_of_pos _ (by simp [mkRow_id])]
    · have ha2 : a ∈ rest := by
        rcases List.mem_cons.mp ha with h | h
        · exact absurd (by rw [h]) hba
        · exact h
      rw [List.map_cons, List.find?_cons_of_neg _ (by simp [mkRow_id, hba]),
        ih a hnd.2 ha2]

theorem upsertRow_ids_nodup (db : DB) (r : Row) (h : (db.map Row.id).Nodup) :
    ((upsertRow db r).map Row.id).Nodup := by
  unfold upsertRow
  rw [List.map_append]
  apply List.Nodup.append
  · exact List.Nodup.sublist (List.Sublist.map Row.id (List.filter_sublist db)) h
  · simp
  · intro x hx hxr
    simp only [List.map_cons, List.map_nil, List.mem_singleton] at hxr
    subst hxr
    obtain ⟨y, hy, hyx⟩ := List.mem_map.mp hx
    have hne := List.of_mem_filter hy
    simp only [decide_eq_true_eq] at hne
    exact hne hyx

theorem foldl_upsert_ids_nodup : ∀ (rows : List Row) (db : DB),
    (db.map Row.id).Nodup → ((rows.foldl upsertRow db).map Row.id).Nodup := by
  intro rows
  induction rows with
  | nil => intro db h; exact h
  | cons r rest ih =>
    intro db h
    rw [List.foldl_cons]
    exact ih _ (upsertRow_ids_nodup db r h)

/-- The committed table always has at most one row per id. -/
theorem snapRows_ids_nodup (S : Snapshot) : ((snapRows S).map Row.id).Nodup :=
  foldl_upsert_ids_nodup (S.map mkRow) [] (by simp)

/-! ## The claims -/

/-- C1: Convergence and deletion correctness of the Reconciler. For any
failure-free sequence of applies ending in `Sn` — whose records all carry
`id` and `name` and whose ids are pairwise distinct, per the spec's
uniqueness invariant — and any starting table: the final table's id set
is exactly `Sn`'s id set; the row stored for each record of `Sn` is that
record's fields with `aliases`/`labels` in encoded form; and after any
single failure-free apply, every id absent from the applied snapshot
(in particular one present before the apply) has no row. -/
theorem c1_convergence (L : List Snapshot) (Sn : Snapshot) (db : DB)
    (hwf : ∀ a ∈ Sn, recordWF a = true)
    (hnd : (Sn.map idOf).Nodup) :
    ((∀ i, i ∈ (applySeq (L ++ [Sn]) db).map Row.id ↔ i ∈ Sn.map idOf) ∧
     (∀ a ∈ Sn, (applySeq (L ++ [Sn]) db).find? (fun r => r.id == idOf a) =
        some (mkRow a)) ∧
     (∀ (dbp : DB) (S : Snapshot), (∀ a ∈ S, recordWF a = true) →
        ∀ i, i ∉ S.map idOf → i ∉ (applyOnce S dbp).map Row.id)) := by
  have hfin : applySeq (L ++ [Sn]) db = snapRows Sn := by
    unfold applySeq
    rw [List.foldl_append]
    exact applyOnce_eq_snapRows Sn _ hwf
  refine ⟨?_, ?_, ?_⟩
  · intro i
    rw [hfin, snapRows_eq_map Sn hnd]
    constructor
    · intro h
      obtain ⟨r, hr, hri⟩ := List.mem_map.mp h
      obtain ⟨a, ha, hra⟩ := List.mem_map.mp hr
      exact List.mem_map.mpr ⟨a, ha, by rw [← hri, ← hra, mkRow_id]⟩
    · intro h
      obtain ⟨a, ha, hai⟩ := List.mem_map.mp h
      exact List.mem_map.mpr ⟨mkRow a, List.mem_map_of_mem _ ha,
        by rw [mkRow_id, hai]⟩
  · intro a ha
    rw [hfin, snapRows_eq_map Sn hnd]
    exact find?_mkRow_of_nodup Sn a hnd ha
  · intro dbp S hwfS i hiS hmem
    rw [applyOnce_eq_snapRows S dbp hwfS] at hmem
    obtain ⟨r, hr, hri⟩ := List.mem_map.mp hmem
    exact hiS (hri ▸ snapRows_ids_sub S r hr)

/-- C1 witness: the stale row id `B` is gone after the sequence. -/
theorem c1_convergence_witness :
    "B" ∈ (applySeq [[sampleKitchen], [sampleKitchen, sampleGarage]]
        [sampleRowB]).map Row.id ↔
      "B" ∈ [sampleKitchen, sampleGarage].map idOf :=
  (c1_convergence [[sampleKitchen]] [sampleKitchen, sampleGarage] [sampleRowB]
    (by decide) (by decide)).1 "B"

/-- C2: Idempotence of the Reconciler: a second failure-free apply of the
same snapshot leaves the table exactly as after the first, the second
pass commits without error, and the table has no duplicate rows (ids are
pairwise distinct). -/
theorem c2_idempotent (S : Snapshot) (db : DB)
    (hwf : ∀ a ∈ S, recordWF a = true) :
    applyOnce S (applyOnce S db) = applyOnce S db ∧
    reconcileBody okOracle S (applyOnce S db) = .ok (applyOnce S db) ∧
    ((applyOnce S db).map Row.id).Nodup := by
  have h1 := applyOnce_eq_snapRows S db hwf
  have h2 := applyOnce_eq_snapRows S (applyOnce S db) hwf
  refine ⟨h2.trans h1.symm, ?_, ?_⟩
  · rw [reconcileBody_ok S _ hwf, h1]
  · rw [h1]
    exact snapRows_ids_nodup S

/-- C2 witness: applying the sample snapshot twice equals applying it
once. -/
theorem c2_idempotent_witness :
    applyOnce [sampleKitchen] (applyOnce [sampleKitchen] [sampleRowB]) =
      applyOnce [sampleKitchen] [sampleRowB] :=
  (c2_idempotent [sampleKitchen] [sampleRowB] (by decide)).1

/-- C3: When any persistence operation of the pass fails (the connect,
the id `SELECT`, a `DELETE`, an upsert, or the commit), the body raises
before `conn.commit()`, so nothing is committed: the stored table after
the call equals the table before it — never a prefix of the batch. -/
theorem c3_failure_aborts (o : StoreOracle) (S : Snapshot) (db : DB)
    (e : PyExc) (h : reconcileBody o S db = .error e) :
    update_database_with_new_areas o S db = (db, none) := by
  unfold update_database_with_new_areas
  rw [h]

/-- C3 witness: the second upsert fails after a delete and an upsert
already executed, and the committed table is unchanged. -/
theorem c3_failure_aborts_witness :
    reconcileBody failSecondUpsert [sampleKitchen, sampleGarage] [sampleRowB] =
      .error .storeError ∧
    update_database_with_new_areas failSecondUpsert
      [sampleKitchen, sampleGarage] [sampleRowB] = ([sampleRowB], none) :=
  ⟨rfl, c3_failure_aborts failSecondUpsert [sampleKitchen, sampleGarage]
    [sampleRowB] .storeError rfl⟩

/-- C4 counterexample: with the store down (every persistence operation
failing), the body raises StoreError internally, yet
`update_database_with_new_areas` returns normally — the Python function
returns `None` (no `Result`, no counts) and its bare `except` swallows
the error instead of propagating it. -/
theorem c4_counterexample :
    reconcileBody allFailOracle [sampleKitchen] [sampleRowB] =
      .error PyExc.storeError ∧
    update_database_with_new_areas allFailOracle [sampleKitchen] [sampleRowB] =
      ([sampleRowB], none) :=
  ⟨rfl, rfl⟩

/-- C4 amended: `update_database_with_new_areas` returns no `Result`
value (Python `None`) and never propagates an error: on an internal
persistence failure it logs, aborts the batch (table unchanged) and
returns normally; on success it commits the reconciled table. -/
theorem c4_amended (o : StoreOracle) (S : Snapshot) (db : DB) :
    (update_database_with_new_areas o S db).2 = none ∧
    (∀ e, reconcileBody o S db = .error e →
      update_database_with_new_areas o S db = (db, none)) ∧
    (∀ db2, reconcileBody o S db = .ok db2 →
      update_database_with_new_areas o S db = (db2, none)) := by
  refine ⟨?_, ?_, ?_⟩
  · cases h : reconcileBody o S db <;>
      simp [update_database_with_new_areas, h]
  · intro e he
    unfold update_database_with_new_areas
    rw [he]
  · intro db2 h2
    unfold update_database_with_new_areas
    rw [h2]

/-- C4 amended witness: a failing call returns the unchanged table and
`None`. -/
theorem c4_amended_witness :
    (update_database_with_new_areas allFailOracle [sampleGarage] []).2 = none ∧
    update_database_with_new_areas allFailOracle [sampleGarage] [] = ([], none) :=
  ⟨(c4_amended allFailOracle [sampleGarage] []).1,
   (c4_amended allFailOracle [sampleGarage] []).2.1 .storeError rfl⟩

/-- C5 counterexample: a well-formed JSON document that is not an object
(here the empty array) makes `data.get(...)` raise AttributeError rather
than yield an empty record set. -/
theorem c5_counterexample :
    extract_areas (JValue.arr []) = .error PyExc.attributeError := rfl

/-- C5 amended: on a document that IS a dict, a missing `data` key, or a
`data` dict missing `areas`, yields the empty list; a present `areas`
value is returned verbatim; but a non-dict `data` value, or a non-dict
document, raises AttributeError. -/
theorem c5_amended :
    (∀ fields, fields.find? (fun kv => kv.1 == "data") = none →
        extract_areas (.obj fields) = .ok (.arr [])) ∧
    (∀ fields k dfields,
        fields.find? (fun kv => kv.1 == "data") = some (k, .obj dfields) →
        dfields.find? (fun kv => kv.1 == "areas") = none →
        extract_areas (.obj fields) = .ok (.arr [])) ∧
    (∀ fields k dfields k2 v,
        fields.find? (fun kv => kv.1 == "data") = some (k, .obj dfields) →
        dfields.find? (fun kv => kv.1 == "areas") = some (k2, v) →
        extract_areas (.obj fields) = .ok v) ∧
    (∀ fields k v, fields.find? (fun kv => kv.1 == "data") = some (k, v) →
        (∀ dfields, ¬ v = .obj dfields) →
        extract_areas (.obj fields) = .error .attributeError) ∧
    (∀ doc : JValue, (∀ fields, ¬ doc = .obj fields) →
        extract_areas doc = .error .attributeError) := by
  refine ⟨?_, ?_, ?_, ?_, ?_⟩
  · intro fields h
    simp [extract_areas, pyGet, h]
  · intro fields k dfields h1 h2
    simp [extract_areas, pyGet, h1, h2]
  · intro fields k dfields k2 v h1 h2
    simp [extract_areas, pyGet, h1, h2]
  · intro fields k v h1 hv
    cases v <;> simp [extract_areas, pyGet, h1]
    exact absurd rfl (hv _)
  · intro doc h
    cases doc <;> simp [extract_areas, pyGet]
    exact absurd rfl (h _)

/-- C5 amended witness: an object without a `data` key yields the empty
list. -/
theorem c5_amended_witness : extract_areas (.obj []) = .ok (.arr []) :=
  c5_amended.1 [] rfl

/-- C6 counterexample: in `main`'s statement order, the initial sync does
not precede the start of the polling thread, so the detector's first
observation (taken immediately, without an initial sleep) is not ordered
after the initial sync. -/
theorem c6_counterexample :
    ¬ stepIndex MainStep.initialSyncApply <
        stepIndex MainStep.startPollingThread := by
  decide

/-- C6 amended: `main` starts the polling thread (and the updater thread)
strictly before performing the initial sync read and apply, so the
detector's first tick can precede or race with the initial sync. -/
theorem c6_amended :
    stepIndex MainStep.startPollingThread < stepIndex MainStep.initialSyncRead ∧
    stepIndex MainStep.startUpdaterThread < stepIndex MainStep.initialSyncRead ∧
    stepIndex MainStep.initialSyncRead < stepIndex MainStep.initialSyncApply ∧
    stepIndex MainStep.initialSyncApply < stepIndex MainStep.idleLoop := by
  decide

/-- C7: In each polling iteration, if reading the file time fails, or
parsing fails, or extraction fails, or the queue publish fails, then
`last_modified_time` keeps its previous value (so the change is retried
next tick); it advances only when a snapshot was read and published. -/
theorem c7_retry_on_failure (last : Option Nat) (env : PollEnv) :
    (∀ e, env.mtime = .error e → pollStep last env = (last, none)) ∧
    (∀ e, env.doc = .error e → (pollStep last env).1 = last) ∧
    (∀ e doc0, env.doc = .ok doc0 → extract_areas doc0 = .error e →
      (pollStep last env).1 = last) ∧
    (env.putOk = false → (pollStep last env).1 = last) ∧
    ((pollStep last env).1 ≠ last →
      ∃ cur areas, env.mtime = .ok cur ∧
        pollStep last env = (some cur, some areas)) := by
  obtain ⟨mt, doc, put⟩ := env
  cases mt with
  | error e0 => simp [pollStep]
  | ok cur =>
    by_cases hl : last = some cur
    · simp [pollStep, hl]
    · cases doc with
      | error d0 => simp [pollStep, hl]
      | ok doc0 =>
        cases hex : extract_areas doc0 with
        | error ex => simp [pollStep, hl, hex]
        | ok areas =>
          cases put with
          | false => simp [pollStep, hl, hex]
          | true =>
            refine ⟨?_, ?_, ?_, ?_, ?_⟩ <;> simp [pollStep, hl, hex]

/-- C7 witness: a parse failure retains the previous signal. -/
theorem c7_retry_on_failure_witness :
    (pollStep (some 5)
      { mtime := Except.ok 6, doc := Except.error (), putOk := true }).1 =
      some 5 :=
  (c7_retry_on_failure (some 5)
    { mtime := Except.ok 6, doc := Except.error (), putOk := true }).2.1 () rfl

/-- C8: The list-of-strings encoding the Reconciler stores for
`aliases`/`labels` is lossless and order-preserving: decoding the stored
blob returns the original list exactly, for every list of strings. -/
theorem c8_roundtrip (v : List String) :
    decodeStrList (encodeStrList v) = some v ∧
    (∀ a : AreaDict, a.aliases? = some v → recordWF a = true →
      ∃ r, rowOf a = .ok r ∧ r.aliases = encodeStrList v ∧
        decodeStrList r.aliases = some v) := by
  refine ⟨decode_encode v, ?_⟩
  intro a hal hwf
  refine ⟨mkRow a, rowOf_eq_mkRow a hwf, ?_, ?_⟩
  · simp [mkRow, hal]
  · simp [mkRow, hal, decode_encode v]

/-- C8 witness: `["a", "b"]` round-trips through the stored blob. -/
theorem c8_roundtrip_witness :
    decodeStrList (encodeStrList ["a", "b"]) = some ["a", "b"] ∧
    (∃ r, rowOf sampleAliased = .ok r ∧ r.aliases = encodeStrList ["a", "b"] ∧
      decodeStrList r.aliases = some ["a", "b"]) :=
  ⟨(c8_roundtrip ["a", "b"]).1,
   (c8_roundtrip ["a", "b"]).2 sampleAliased rfl (by decide)⟩

/-- C9: duplicate ids in one snapshot do not make the pass fail; the row
committed for such an id is built from the last record with that id in
snapshot order. -/
theorem c9_last_duplicate_wins (S : Snapshot) (db : DB) (i : String)
    (hwf : ∀ a ∈ S, recordWF a = true)
    (hmem : ∃ a ∈ S, idOf a = i) :
    (reconcileBody okOracle S db).isOk = true ∧
    ∃ a, S.reverse.find? (fun x => idOf x == i) = some a ∧
      (applyOnce S db).find? (fun r => r.id == i) = some (mkRow a) := by
  refine ⟨by rw [reconcileBody_ok S db hwf]; rfl, ?_⟩
  have hfind : (applyOnce S db).find? (fun r => r.id == i) =
      ((S.reverse.find? (fun x => idOf x == i)).map mkRow) := by
    rw [applyOnce_eq_snapRows S db hwf]
    unfold snapRows
    rw [foldl_upsert_find? i (S.map mkRow) []]
    simp only [List.find?_nil, Option.or_none]
    rw [← List.map_reverse, List.find?_map]
    rfl
  obtain ⟨a0, ha0, hai⟩ := hmem
  have hsome : (S.reverse.find? (fun x => idOf x == i)).isSome := by
    rw [List.find?_isSome]
    exact ⟨a0, by simp [ha0], by simp [hai]⟩
  obtain ⟨a, ha⟩ := Option.isSome_iff_exists.mp hsome
  exact ⟨a, ha, by rw [hfind, ha]; rfl⟩

/-- C9 witness: two records with id `A`; the second one's row is stored. -/
theorem c9_last_duplicate_wins_witness :
    (reconcileBody okOracle [sampleKitchen, sampleKitchen2] []).isOk = true ∧
    ∃ a, [sampleKitchen, sampleKitchen2].reverse.find?
        (fun x => idOf x == "A") = some a ∧
      (applyOnce [sampleKitchen, sampleKitchen2] []).find?
        (fun r => r.id == "A") = some (mkRow a) :=
  c9_last_duplicate_wins [sampleKitchen, sampleKitchen2] [] "A" (by decide)
    ⟨sampleKitchen, by simp, rfl⟩

/-- C10: a record needs only `id` and `name` for its upsert to succeed;
missing optional string fields are stored as NULL (`none`) and missing
`aliases`/`labels` as the encoding of the empty list; a record lacking
`id` or `name` raises KeyError. -/
theorem c10_optional_defaults :
    (∀ (a : AreaDict) (i n : String), a.id? = some i → a.name? = some n →
      ∃ r, rowOf a = .ok r ∧ r.id = i ∧ r.name = n ∧
        r.floor_id = a.floor_id ∧ r.icon = a.icon ∧ r.picture = a.picture ∧
        r.created_at = a.created_at ∧ r.modified_at = a.modified_at ∧
        r.aliases = encodeStrList (a.aliases?.getD []) ∧
        r.labels = encodeStrList (a.labels?.getD [])) ∧
    (∀ a : AreaDict, a.id? = none ∨ a.name? = none →
      (rowOf a).isOk = false) ∧
    (∀ (a : AreaDict) (db : DB), recordWF a = true →
      (reconcileBody okOracle [a] db).isOk = true) := by
  refine ⟨?_, ?_, ?_⟩
  · intro a i n hi hn
    refine ⟨mkRow a, rowOf_eq_mkRow a (by simp [recordWF, hi, hn]), ?_⟩
    simp [mkRow, idOf, hi, hn]
  · intro a h
    rcases h with h | h
    · simp only [rowOf, h]
      rfl
    · cases hid : a.id? <;> simp only [rowOf, hid, h] <;> rfl
  · intro a db hwf
    rw [reconcileBody_ok [a] db ?_]
    · rfl
    · intro x hx
      simp only [List.mem_singleton] at hx
      rw [hx]
      exact hwf

/-- C10 witness: a record with only `id` and `name` upserts with NULLs
and empty-list encodings; a nameless record fails. -/
theorem c10_optional_defaults_witness :
    (∃ r, rowOf sampleMinimal = .ok r ∧ r.id = "M" ∧ r.name = "Min" ∧
      r.floor_id = none ∧ r.icon = none ∧ r.picture = none ∧
      r.created_at = none ∧ r.modified_at = none ∧
      r.aliases = encodeStrList [] ∧ r.labels = encodeStrList []) ∧
    (rowOf sampleNameless).isOk = false :=
  ⟨c10_optional_defaults.1 sampleMinimal "M" "Min" rfl rfl,
   c10_optional_defaults.2.1 sampleNameless (Or.inr rfl)⟩

end AreaMonitor
